import Mathlib

/-!
Verification of the Yield-Curve-Analyzer core (src/YieldCurveLive.h and
src/YieldCurve.h) against its natural-language specification.

Embedding conventions:
* C++ `double` arithmetic is modelled by exact rationals (`ℚ`); decimal
  literals of the source become the corresponding exact rationals
  (e.g. `1e-6` becomes `1/1000000`, `0.2` becomes `1/5`).
* The real-exponent `std::pow` used by the forward-rate computation is
  modelled by `Real.rpow` (the `ℝ`-valued power), so `getForwardRate`
  returns an `ℝ`.
* File I/O (opening the CSV, skipping the header, splitting each line at
  commas) is external to the core: `loadFromCSV` is modelled on the
  already-tokenized rows, one `List Token` per data line, where a
  `Token` records the raw text of the field together with the result of
  `std::stod` on it (`some v` when the conversion succeeds, `none` when
  `std::stod` throws `std::invalid_argument`).

Names follow the source (`getYield`, `getForwardRate`, `getDuration`,
`getSpread`, `analyzeCurveShape`, `loadFromCSV`, `linearInterpolation`).
Definitions whose name ends in `Spec` are written from the specification
text, to be compared with the source-side definitions.
-/

namespace YieldCurveModel

/-- Mirrors `struct YieldPoint` of both headers: a maturity in years, a
yield in percent and a tenor label. -/
structure YieldPoint where
  maturity : ℚ
  yield : ℚ
  maturity_label : String
deriving DecidableEq

/-- The exact-match tolerance `1e-6` of `getYield`. -/
def nearTol : ℚ := 1 / 1000000

/-- The degenerate-bracket tolerance `1e-9` of `linearInterpolation`. -/
def degTol : ℚ := 1 / 1000000000

/-- Mirrors `linearInterpolation` (YieldCurveLive.h lines 48-51): if the
two abscissae are within `1e-9` of each other return `y1`, otherwise the
standard linear-interpolation formula. -/
def linearInterpolation (x x1 y1 x2 y2 : ℚ) : ℚ :=
  if |x2 - x1| < degTol then y1
  else y1 + (y2 - y1) * (x - x1) / (x2 - x1)

/-- The last element of the nonempty list `p :: l`; models
`yield_points.back()`. -/
def lastP : YieldPoint → List YieldPoint → YieldPoint
  | p, [] => p
  | _, q :: l => lastP q l

/-- Mirrors the bracket-search loop of `getYield` (lines 173-180): scan
consecutive pairs and return the interpolated value at the first pair
`(p1, p2)` with `p1.maturity ≤ m ≤ p2.maturity`; `none` models falling
through to the trailing `return 0.0`. -/
def bracketLoop (m : ℚ) : List YieldPoint → Option ℚ
  | p1 :: p2 :: rest =>
      if p1.maturity ≤ m ∧ m ≤ p2.maturity then
        some (linearInterpolation m p1.maturity p1.yield p2.maturity p2.yield)
      else bracketLoop m (p2 :: rest)
  | _ => none

/-- The exact-match test `std::abs(point.maturity - maturity) < 1e-6`. -/
def nearB (m : ℚ) (q : YieldPoint) : Bool := decide (|q.maturity - m| < nearTol)

/-- Mirrors `getYield` (YieldCurveLive.h lines 153-183; the body of
`YieldCurve::getYield` is identical): empty store returns 0; first point
within `1e-6` of the query wins; then the two flat-extrapolation
boundary checks against the front and back points; then the bracket
scan, whose fall-through is the trailing `return 0.0`. -/
def getYield (ps : List YieldPoint) (m : ℚ) : ℚ :=
  match ps with
  | [] => 0
  | p :: rest =>
    match (p :: rest).find? (nearB m) with
    | some q => q.yield
    | none =>
      if m ≤ p.maturity then p.yield
      else if (lastP p rest).maturity ≤ m then (lastP p rest).yield
      else (bracketLoop m (p :: rest)).getD 0

/-- Mirrors `getForwardRate` (YieldCurveLive.h lines 186-202 and
YieldCurve.h lines 163-175): `0` for `end_maturity ≤ start_maturity`,
otherwise the compounding formula evaluated with real-exponent powers. -/
noncomputable def getForwardRate (ps : List YieldPoint) (t1 t2 : ℚ) : ℝ :=
  if t2 ≤ t1 then 0
  else
    (((1 + (getYield ps t2 : ℝ) / 100) ^ (t2 : ℝ) /
      (1 + (getYield ps t1 : ℝ) / 100) ^ (t1 : ℝ)) ^ ((1 : ℝ) / ((t2 : ℝ) - (t1 : ℝ))) - 1) * 100

/-- Mirrors `getDuration` (lines 205-216): the zero-coupon case returns
the maturity itself; otherwise the approximation `m / (1 + y)` with
`y = getYield(m)/100`. -/
def getDuration (ps : List YieldPoint) (maturity coupon_rate : ℚ) : ℚ :=
  if coupon_rate = 0 then maturity
  else maturity / (1 + getYield ps maturity / 100)

/-- Mirrors `getSpread` (lines 219-221). -/
def getSpread (ps : List YieldPoint) (maturity1 maturity2 : ℚ) : ℚ :=
  getYield ps maturity2 - getYield ps maturity1

/-- Mirrors `analyzeCurveShape` (lines 224-243) with the source's
decimal thresholds as exact rationals. -/
def analyzeCurveShape (ps : List YieldPoint) : String :=
  if ps.length < 3 then "Insufficient Data"
  else
    let short_rate := getYield ps (1/4)
    let medium_rate := getYield ps 5
    let long_rate := getYield ps 30
    if short_rate > medium_rate + 1/5 ∧ long_rate > medium_rate + 1/5 then "Humped"
    else if short_rate > long_rate + 1/10 then "Inverted"
    else if long_rate > short_rate + 1/2 then "Steep Normal"
    else if long_rate > short_rate + 1/10 then "Normal"
    else "Flat"

/-- Mirrors the `recession_warning` boolean written by `exportToJSON`
(lines 367-369): `true` exactly when `getSpread(2,10) < -0.2`. -/
def recessionWarning (ps : List YieldPoint) : Bool :=
  decide (getSpread ps 2 10 < -(1/5))

/-! ### The CSV-loading loop of `YieldCurveLive::loadFromCSV` -/

/-- One comma-separated field of a data row: its raw text together with
the result of `std::stod` on it (`none` when the conversion throws
`std::invalid_argument`). -/
structure Token where
  raw : String
  val : Option ℚ
deriving DecidableEq

/-- The resident state of a `YieldCurveLive` object: its point vector
and its `curve_date`. -/
structure CurveState where
  yield_points : List YieldPoint
  curve_date : String
deriving DecidableEq

/-- The fixed tenor order of `loadFromCSV` (line 121-123). -/
def maturity_order : List String :=
  ["1MO", "3MO", "6MO", "1Y", "2Y", "3Y", "5Y", "7Y", "10Y", "20Y", "30Y"]

/-- The label-to-years table built by `initializeMaturityMap` (lines
31-45); `std::map::operator[]` default-inserts `0.0` for an unknown
key. -/
def maturity_map : String → ℚ
  | "1MO" => 1/12
  | "3MO" => 1/4
  | "6MO" => 1/2
  | "1Y" => 1
  | "2Y" => 2
  | "3Y" => 3
  | "5Y" => 5
  | "7Y" => 7
  | "10Y" => 10
  | "20Y" => 20
  | "30Y" => 30
  | _ => 0

/-- The per-row tenor loop (lines 125-135): walk the tenor labels and
the value fields in step; a field on which `std::stod` fails is skipped
for that tenor only. -/
def parseRowPoints : List String → List Token → List YieldPoint
  | lab :: labs, t :: ts =>
    match t.val with
    | some y => ⟨maturity_map lab, y, lab⟩ :: parseRowPoints labs ts
    | none => parseRowPoints labs ts
  | _, _ => []

/-- Insertion step of the maturity sort. -/
def insertPoint (p : YieldPoint) : List YieldPoint → List YieldPoint
  | [] => [p]
  | q :: rest => if p.maturity ≤ q.maturity then p :: q :: rest else q :: insertPoint p rest

/-- The `std::sort` by maturity at the end of `loadFromCSV` (lines
142-146), modelled as insertion sort (the comparison keys are distinct
whenever the sort matters, so any comparison sort produces this same
sequence). -/
def sortByMaturity : List YieldPoint → List YieldPoint
  | [] => []
  | p :: rest => insertPoint p (sortByMaturity rest)

/-- Character-list version of `starts with`. -/
def chPre : List Char → List Char → Bool
  | [], _ => true
  | _ :: _, [] => false
  | a :: as, b :: bs => a == b && chPre as bs

/-- Character-list substring search. -/
def chSub (needle : List Char) : List Char → Bool
  | [] => chPre needle []
  | b :: bs => chPre needle (b :: bs) || chSub needle bs

/-- Models `hay.find(needle) != std::string::npos`. -/
def strContains (hay needle : String) : Bool := chSub needle.data hay.data

/-- A row the loading loop acts on: at least 12 tokens (line 112) and a
date token that passes the filter (line 116). -/
def goodRow (filter : String) (row : List Token) : Bool :=
  match row with
  | t0 :: vals =>
      decide (12 ≤ (t0 :: vals).length) &&
        (filter.data.isEmpty || strContains t0.raw filter)
  | [] => false

/-- The row loop of `loadFromCSV` (lines 103-140): rows with fewer than
12 tokens are skipped; a row passing the date filter replaces the
resident points and date and sets `found_date`; with a non-empty filter
the loop breaks after the first such row. -/
def loadLoop (filter : String) : CurveState → Bool → List (List Token) → CurveState × Bool
  | st, found, [] => (st, found)
  | st, found, row :: rest =>
    if 12 ≤ row.length then
      match row with
      | t0 :: vals =>
        if filter.data.isEmpty || strContains t0.raw filter then
          let st' : CurveState := ⟨parseRowPoints maturity_order vals, t0.raw⟩
          if filter.data.isEmpty then loadLoop filter st' true rest
          else (st', true)
        else loadLoop filter st found rest
      | [] => loadLoop filter st found rest
    else loadLoop filter st found rest

/-- Mirrors `loadFromCSV` (lines 92-150) from the already-tokenized data
rows on: run the row loop, then sort the resident points by maturity;
the boolean is the returned `found_date`. -/
def loadFromCSV (st : CurveState) (rows : List (List Token)) (filter : String) :
    CurveState × Bool :=
  let r := loadLoop filter st false rows
  (⟨sortByMaturity r.1.yield_points, r.1.curve_date⟩, r.2)

/-- The date token of a row. -/
def rowDate : List Token → String
  | t0 :: _ => t0.raw
  | [] => ""

/-- The points a row contributes when it becomes resident. -/
def rowPoints (row : List Token) : List YieldPoint :=
  parseRowPoints maturity_order (row.drop 1)

/-- The last row of the input that the loop acts on (used to describe
the empty-filter path, where later rows overwrite earlier ones). -/
def lastGoodRow (filter : String) : List (List Token) → Option (List Token)
  | [] => none
  | row :: rest =>
    match lastGoodRow filter rest with
    | some r => some r
    | none => if goodRow filter row then some row else none

/-- The row that ends up resident: the first acted-on row when the
filter is non-empty (the loop breaks there), the last one when the
filter is empty. -/
def pickRow (filter : String) (rows : List (List Token)) : Option (List Token) :=
  if filter.data.isEmpty then lastGoodRow filter rows
  else rows.find? (goodRow filter)

/-! ### Specification-side definitions

These are written from the specification's words (spec.md §4.2), not
from the source, and are compared with the source-side definitions in
the claim theorems. -/

/-- A point of minimal maturity, per the spec's "the minimum stored
maturity / the minimum point's yield". -/
def minMatPoint : List YieldPoint → Option YieldPoint
  | [] => none
  | p :: l =>
    match minMatPoint l with
    | none => some p
    | some q => if p.maturity ≤ q.maturity then some p else some q

/-- A point of maximal maturity, per the spec's "the maximum stored
maturity / the maximum point's yield". -/
def maxMatPoint : List YieldPoint → Option YieldPoint
  | [] => none
  | p :: l =>
    match maxMatPoint l with
    | none => some p
    | some q => if q.maturity < p.maturity then some p else some q

/-- The lower bracketing point of the spec: among the stored points
strictly below the query, the one of maximal maturity. -/
def lowerBracket (ps : List YieldPoint) (m : ℚ) : Option YieldPoint :=
  maxMatPoint (ps.filter (fun p => decide (p.maturity < m)))

/-- The upper bracketing point of the spec: among the stored points
strictly above the query, the one of minimal maturity. -/
def upperBracket (ps : List YieldPoint) (m : ℚ) : Option YieldPoint :=
  minMatPoint (ps.filter (fun p => decide (m < p.maturity)))

/-- The piecewise description of `yield_at` in spec.md §4.2, written
from the spec's words: empty store returns 0; a stored point within
`1e-6` of the query returns its yield; at or below the minimum stored
maturity, the minimum point's yield; at or above the maximum, the
maximum point's yield; otherwise the linear formula between the two
bracketing points, a degenerate bracket returning `y1`. -/
def yieldAtSpec (ps : List YieldPoint) (m : ℚ) : ℚ :=
  match ps with
  | [] => 0
  | p :: rest =>
    match (p :: rest).find? (nearB m) with
    | some q => q.yield
    | none =>
      match minMatPoint (p :: rest), maxMatPoint (p :: rest) with
      | some lo, some hi =>
        if m ≤ lo.maturity then lo.yield
        else if hi.maturity ≤ m then hi.yield
        else
          match lowerBracket (p :: rest) m, upperBracket (p :: rest) m with
          | some p1, some p2 =>
            if |p2.maturity - p1.maturity| < degTol then p1.yield
            else p1.yield + (p2.yield - p1.yield) * (m - p1.maturity) / (p2.maturity - p1.maturity)
          | _, _ => 0
      | _, _ => 0

/-- The ordered case list of the spec's shape classification (spec.md
§4.2, "evaluated in this exact order, first match wins"). -/
def shapeCases (s m l : ℚ) : List (Bool × String) :=
  [(decide (s > m + 1/5) && decide (l > m + 1/5), "Humped"),
   (decide (s > l + 1/10), "Inverted"),
   (decide (l > s + 1/2), "Steep Normal"),
   (decide (l > s + 1/10), "Normal")]

/-- The spec's shape classification: fewer than 3 points gives
"Insufficient Data"; otherwise the first matching case of the ordered
case list, and "Flat" when none matches. -/
def classifyShapeSpec (ps : List YieldPoint) : String :=
  if ps.length < 3 then "Insufficient Data"
  else
    let s := getYield ps (1/4)
    let m := getYield ps 5
    let l := getYield ps 30
    match (shapeCases s m l).find? (fun c => c.1) with
    | some c => c.2
    | none => "Flat"

/-! ### Helper lemmas -/

/-- The empty store answers every `getYield` query with 0. -/
theorem getYield_nil (m : ℚ) : getYield [] m = 0 := rfl

/-- The cascaded conditionals of `analyzeCurveShape` agree with the
first-match scan over the spec's ordered case list. -/
theorem shape_glue (s m l : ℚ) :
    (if s > m + 1/5 ∧ l > m + 1/5 then "Humped"
     else if s > l + 1/10 then "Inverted"
     else if l > s + 1/2 then "Steep Normal"
     else if l > s + 1/10 then "Normal"
     else "Flat")
    = match (shapeCases s m l).find? (fun c => c.1) with
      | some c => c.2
      | none => "Flat" := by
  unfold shapeCases
  by_cases hA : s > m + 1/5 ∧ l > m + 1/5
  · rw [if_pos hA, decide_eq_true hA.1, decide_eq_true hA.2]
    rfl
  · rw [if_neg hA]
    have hAB : (decide (s > m + 1/5) && decide (l > m + 1/5)) = false := by
      rcases Decidable.not_and_iff_or_not.mp hA with h | h
      · rw [decide_eq_false h]; rfl
      · rw [decide_eq_false h, Bool.and_false]
    rw [hAB]
    by_cases hC : s > l + 1/10
    · rw [if_pos hC, decide_eq_true hC]; rfl
    · rw [if_neg hC, decide_eq_false hC]
      by_cases hD : l > s + 1/2
      · rw [if_pos hD, decide_eq_true hD]; rfl
      · rw [if_neg hD, decide_eq_false hD]
        by_cases hE : l > s + 1/10
        · rw [if_pos hE, decide_eq_true hE]; rfl
        · rw [if_neg hE, decide_eq_false hE]; rfl

/-- Unfolding equation for `lastGoodRow` on a cons cell. -/
theorem lastGoodRow_cons (filter : String) (row : List Token) (rest : List (List Token)) :
    lastGoodRow filter (row :: rest) =
      (match lastGoodRow filter rest with
       | some r => some r
       | none => if goodRow filter row then some row else none) := rfl

/-- The `found_date` flag after the row loop: the initial flag, or-ed
with "some row is acted on". -/
theorem loadLoop_found (filter : String) :
    ∀ (rows : List (List Token)) (st : CurveState) (found : Bool),
      (loadLoop filter st found rows).2 = (found || rows.any (goodRow filter)) := by
  intro rows
  induction rows with
  | nil =>
    intro st found
    simp [loadLoop]
  | cons row rest ih =>
    intro st found
    rcases row with _ | ⟨t0, vals⟩
    · have hlen : ¬ (12 ≤ ([] : List Token).length) := by decide
      simp only [loadLoop, if_neg hlen]
      rw [ih]
      have hg : goodRow filter ([] : List Token) = false := rfl
      simp [hg]
    · by_cases hlen : 12 ≤ (t0 :: vals).length
      · by_cases hmatch : (filter.data.isEmpty || strContains t0.raw filter) = true
        · have hg : goodRow filter (t0 :: vals) = true := by
            show (decide (12 ≤ (t0 :: vals).length) &&
              (filter.data.isEmpty || strContains t0.raw filter)) = true
            rw [decide_eq_true hlen, hmatch]
            rfl
          by_cases hemp : filter.data.isEmpty = true
          · simp only [loadLoop, if_pos hlen, if_pos hmatch, if_pos hemp]
            rw [ih]
            simp [hg]
          · simp only [loadLoop, if_pos hlen, if_pos hmatch, if_neg hemp]
            simp [hg]
        · have hb : (filter.data.isEmpty || strContains t0.raw filter) = false :=
            Bool.not_eq_true _ ▸ hmatch
          have hg : goodRow filter (t0 :: vals) = false := by
            show (decide (12 ≤ (t0 :: vals).length) &&
              (filter.data.isEmpty || strContains t0.raw filter)) = false
            rw [decide_eq_true hlen, hb, Bool.and_false]
          simp only [loadLoop, if_pos hlen, if_neg hmatch]
          rw [ih]
          simp [hg]
      · have hg : goodRow filter (t0 :: vals) = false := by
          show (decide (12 ≤ (t0 :: vals).length) &&
            (filter.data.isEmpty || strContains t0.raw filter)) = false
          rw [decide_eq_false hlen, Bool.false_and]
        simp only [loadLoop, if_neg hlen]
        rw [ih]
        simp [hg]

/-- The resident state after the row loop: determined by `pickRow` (the
loop's break/overwrite behavior), with the incoming state surviving only
when no row is acted on. -/
theorem loadLoop_state (filter : String) :
    ∀ (rows : List (List Token)) (st : CurveState) (found : Bool),
      (loadLoop filter st found rows).1 =
        (match pickRow filter rows with
         | some r => (⟨rowPoints r, rowDate r⟩ : CurveState)
         | none => st) := by
  intro rows
  induction rows with
  | nil =>
    intro st found
    simp [loadLoop, pickRow, lastGoodRow, ite_self]
  | cons row rest ih =>
    intro st found
    have hskip : goodRow filter row = false →
        pickRow filter (row :: rest) = pickRow filter rest := by
      intro hg
      unfold pickRow
      by_cases hemp : filter.data.isEmpty = true
      · rw [if_pos hemp, if_pos hemp, lastGoodRow_cons]
        cases hL : lastGoodRow filter rest
        · simp [hg]
        · simp
      · rw [if_neg hemp, if_neg hemp, List.find?_cons_of_neg]
        intro hc
        rw [hg] at hc
        cases hc
    rcases row with _ | ⟨t0, vals⟩
    · have hlen : ¬ (12 ≤ ([] : List Token).length) := by decide
      simp only [loadLoop, if_neg hlen]
      rw [ih, hskip rfl]
    · by_cases hlen : 12 ≤ (t0 :: vals).length
      · by_cases hmatch : (filter.data.isEmpty || strContains t0.raw filter) = true
        · have hg : goodRow filter (t0 :: vals) = true := by
            show (decide (12 ≤ (t0 :: vals).length) &&
              (filter.data.isEmpty || strContains t0.raw filter)) = true
            rw [decide_eq_true hlen, hmatch]
            rfl
          by_cases hemp : filter.data.isEmpty = true
          · simp only [loadLoop, if_pos hlen, if_pos hmatch, if_pos hemp]
            rw [ih]
            have hrest : pickRow filter rest = lastGoodRow filter rest := by
              unfold pickRow
              rw [if_pos hemp]
            have hpick : pickRow filter ((t0 :: vals) :: rest) =
                (match lastGoodRow filter rest with
                 | some r => some r
                 | none => some (t0 :: vals)) := by
              unfold pickRow
              rw [if_pos hemp, lastGoodRow_cons]
              cases hL : lastGoodRow filter rest
              · simp [hg]
              · simp
            rw [hrest, hpick]
            cases hL : lastGoodRow filter rest
            · rfl
            · rfl
          · simp only [loadLoop, if_pos hlen, if_pos hmatch, if_neg hemp]
            have hpick : pickRow filter ((t0 :: vals) :: rest) = some (t0 :: vals) := by
              unfold pickRow
              rw [if_neg hemp, List.find?_cons_of_pos _ hg]
            rw [hpick]
            rfl
        · have hb : (filter.data.isEmpty || strContains t0.raw filter) = false :=
            Bool.not_eq_true _ ▸ hmatch
          have hg : goodRow filter (t0 :: vals) = false := by
            show (decide (12 ≤ (t0 :: vals).length) &&
              (filter.data.isEmpty || strContains t0.raw filter)) = false
            rw [decide_eq_true hlen, hb, Bool.and_false]
          simp only [loadLoop, if_pos hlen, if_neg hmatch]
          rw [ih, hskip hg]
      · have hg : goodRow filter (t0 :: vals) = false := by
          show (decide (12 ≤ (t0 :: vals).length) &&
            (filter.data.isEmpty || strContains t0.raw filter)) = false
          rw [decide_eq_false hlen, Bool.false_and]
        simp only [loadLoop, if_neg hlen]
        rw [ih, hskip hg]

/-- Inserting a point is a permutation of consing it. -/
theorem insertPoint_perm : ∀ (l : List YieldPoint) (p : YieldPoint),
    List.Perm (insertPoint p l) (p :: l) := by
  intro l
  induction l with
  | nil => intro p; exact List.Perm.refl _
  | cons q rest ih =>
    intro p
    show List.Perm (if p.maturity ≤ q.maturity then p :: q :: rest else q :: insertPoint p rest) _
    by_cases hle : p.maturity ≤ q.maturity
    · rw [if_pos hle]
    · rw [if_neg hle]
      exact ((ih p).cons q).trans (List.Perm.swap p q rest)

/-- The maturity sort permutes the list. -/
theorem sortByMaturity_perm : ∀ l : List YieldPoint, List.Perm (sortByMaturity l) l := by
  intro l
  induction l with
  | nil => exact List.Perm.refl _
  | cons p rest ih =>
    show List.Perm (insertPoint p (sortByMaturity rest)) (p :: rest)
    exact (insertPoint_perm _ p).trans (ih.cons p)

/-- Inserting into a weakly sorted list keeps it weakly sorted. -/
theorem insertPoint_sorted : ∀ (l : List YieldPoint) (p : YieldPoint),
    List.Pairwise (fun a b : YieldPoint => a.maturity ≤ b.maturity) l →
    List.Pairwise (fun a b : YieldPoint => a.maturity ≤ b.maturity) (insertPoint p l) := by
  intro l
  induction l with
  | nil => intro p _; simp [insertPoint]
  | cons q rest ih =>
    intro p hs
    rcases List.pairwise_cons.mp hs with ⟨hq, hrest⟩
    show List.Pairwise _ (if p.maturity ≤ q.maturity then p :: q :: rest else q :: insertPoint p rest)
    by_cases hle : p.maturity ≤ q.maturity
    · rw [if_pos hle]
      refine List.pairwise_cons.mpr ⟨?_, hs⟩
      intro x hx
      rcases List.mem_cons.mp hx with rfl | hx
      · exact hle
      · exact le_trans hle (hq x hx)
    · rw [if_neg hle]
      refine List.pairwise_cons.mpr ⟨?_, ih p hrest⟩
      intro x hx
      rcases List.mem_cons.mp ((insertPoint_perm rest p).mem_iff.mp hx) with rfl | hmem
      · exact le_of_lt (not_le.mp hle)
      · exact hq x hmem

/-- The maturity sort yields a weakly sorted list. -/
theorem sortByMaturity_sorted : ∀ l : List YieldPoint,
    List.Pairwise (fun a b : YieldPoint => a.maturity ≤ b.maturity) (sortByMaturity l) := by
  intro l
  induction l with
  | nil => simp [sortByMaturity]
  | cons p rest ih => exact insertPoint_sorted _ p ih

/-- Sorting a list whose maturities are pairwise distinct yields a
strictly increasing list. -/
theorem sortByMaturity_strict (l : List YieldPoint)
    (h : List.Pairwise (fun a b : YieldPoint => a.maturity ≠ b.maturity) l) :
    List.Pairwise (fun a b : YieldPoint => a.maturity < b.maturity) (sortByMaturity l) := by
  have hne : List.Pairwise (fun a b : YieldPoint => a.maturity ≠ b.maturity) (sortByMaturity l) :=
    (List.Perm.pairwise_iff (fun hab => hab.symm) (sortByMaturity_perm l)).mpr h
  exact ((sortByMaturity_sorted l).and hne).imp fun hab => lt_of_le_of_ne hab.1 hab.2

/-- Every maturity produced by the row parser comes from its label
list through `maturity_map`. -/
theorem parseRowPoints_mem : ∀ (labs : List String) (ts : List Token) (p : YieldPoint),
    p ∈ parseRowPoints labs ts → ∃ lab ∈ labs, p.maturity = maturity_map lab := by
  intro labs
  induction labs with
  | nil => intro ts p hp; cases hp
  | cons lab labs ih =>
    intro ts p hp
    cases ts with
    | nil => cases hp
    | cons t ts =>
      revert hp
      show p ∈ (match t.val with
        | some y => (⟨maturity_map lab, y, lab⟩ : YieldPoint) :: parseRowPoints labs ts
        | none => parseRowPoints labs ts) → _
      cases t.val with
      | some y =>
        intro hp
        rcases List.mem_cons.mp hp with rfl | hp
        · exact ⟨lab, List.mem_cons_self lab labs, rfl⟩
        · rcases ih ts p hp with ⟨lab', hmem, heq⟩
          exact ⟨lab', List.mem_cons_of_mem lab hmem, heq⟩
      | none =>
        intro hp
        rcases ih ts p hp with ⟨lab', hmem, heq⟩
        exact ⟨lab', List.mem_cons_of_mem lab hmem, heq⟩

/-- The row parser preserves the strict ordering of the tenor table
along the label list: its output has strictly increasing maturities. -/
theorem parseRowPoints_pairwise : ∀ (labs : List String) (ts : List Token),
    List.Pairwise (fun a b => maturity_map a < maturity_map b) labs →
    List.Pairwise (fun a b : YieldPoint => a.maturity < b.maturity) (parseRowPoints labs ts) := by
  intro labs
  induction labs with
  | nil => intro ts _; exact List.Pairwise.nil
  | cons lab labs ih =>
    intro ts hs
    rcases List.pairwise_cons.mp hs with ⟨hlab, htail⟩
    cases ts with
    | nil => exact List.Pairwise.nil
    | cons t ts =>
      show List.Pairwise _ (match t.val with
        | some y => (⟨maturity_map lab, y, lab⟩ : YieldPoint) :: parseRowPoints labs ts
        | none => parseRowPoints labs ts)
      cases t.val with
      | some y =>
        refine List.pairwise_cons.mpr ⟨?_, ih ts htail⟩
        intro q hq
        rcases parseRowPoints_mem labs ts q hq with ⟨lab', hmem, heq⟩
        rw [heq]
        exact hlab lab' hmem
      | none => exact ih ts htail

/-- The tenor table is strictly increasing along the fixed tenor
order. -/
theorem maturity_order_increasing :
    List.Pairwise (fun a b => maturity_map a < maturity_map b) maturity_order := by
  with_unfolding_all decide

/-- In a sorted bracket-scan list with the query strictly inside the
span, the scan always fires (the code's trailing `return 0.0` is
unreachable). -/
theorem bracketLoop_fires : ∀ (rest : List YieldPoint) (p : YieldPoint) (m : ℚ),
    List.Pairwise (fun a b : YieldPoint => a.maturity < b.maturity) (p :: rest) →
    p.maturity < m → m < (lastP p rest).maturity →
    (bracketLoop m (p :: rest)).isSome = true := by
  intro rest
  induction rest with
  | nil =>
    intro p m _ h1 h2
    exact absurd (h1.trans h2) (lt_irrefl _)
  | cons q rest ih =>
    intro p m hs h1 h2
    show (if p.maturity ≤ m ∧ m ≤ q.maturity then
           some (linearInterpolation m p.maturity p.yield q.maturity q.yield)
         else bracketLoop m (q :: rest)).isSome = true
    by_cases hq : m ≤ q.maturity
    · rw [if_pos ⟨le_of_lt h1, hq⟩]
      rfl
    · rw [if_neg (fun hc => hq hc.2)]
      exact ih q m (List.pairwise_cons.mp hs).2 (not_le.mp hq) h2

/-- The last element of a nonempty list is one of its elements. -/
theorem lastP_mem : ∀ (rest : List YieldPoint) (p : YieldPoint), lastP p rest ∈ p :: rest := by
  intro rest
  induction rest with
  | nil => intro p; exact List.mem_singleton_self p
  | cons q rest ih =>
    intro p
    show lastP q rest ∈ p :: q :: rest
    exact List.mem_cons_of_mem p (ih q)

/-- On a strictly sorted nonempty list, the minimum-maturity point is
the head. -/
theorem minMatPoint_sorted_head : ∀ (rest : List YieldPoint) (p : YieldPoint),
    List.Pairwise (fun a b : YieldPoint => a.maturity < b.maturity) (p :: rest) →
    minMatPoint (p :: rest) = some p := by
  intro rest
  induction rest with
  | nil => intro p _; rfl
  | cons q rest ih =>
    intro p hs
    rcases List.pairwise_cons.mp hs with ⟨hhead, htail⟩
    show (match minMatPoint (q :: rest) with
          | none => some p
          | some r => if p.maturity ≤ r.maturity then some p else some r) = some p
    rw [ih q htail]
    show (if p.maturity ≤ q.maturity then some p else some q) = some p
    rw [if_pos (le_of_lt (hhead q (List.mem_cons_self q rest)))]

/-- On a strictly sorted nonempty list, the maximum-maturity point is
the last element. -/
theorem maxMatPoint_sorted_lastP : ∀ (rest : List YieldPoint) (p : YieldPoint),
    List.Pairwise (fun a b : YieldPoint => a.maturity < b.maturity) (p :: rest) →
    maxMatPoint (p :: rest) = some (lastP p rest) := by
  intro rest
  induction rest with
  | nil => intro p _; rfl
  | cons q rest ih =>
    intro p hs
    rcases List.pairwise_cons.mp hs with ⟨hhead, htail⟩
    show (match maxMatPoint (q :: rest) with
          | none => some p
          | some r => if r.maturity < p.maturity then some p else some r) = some (lastP q rest)
    rw [ih q htail]
    show (if (lastP q rest).maturity < p.maturity then some p else some (lastP q rest))
        = some (lastP q rest)
    rw [if_neg (not_lt.mpr (le_of_lt (hhead _ (lastP_mem rest q))))]

/-- A list with no maximum-maturity point is empty. -/
theorem maxMatPoint_eq_none : ∀ l : List YieldPoint, maxMatPoint l = none → l = [] := by
  intro l
  cases l with
  | nil => intro _; rfl
  | cons p l =>
    intro h
    exfalso
    revert h
    show (match maxMatPoint l with
          | none => some p
          | some q => if q.maturity < p.maturity then some p else some q) = none → False
    cases maxMatPoint l with
    | none => intro h; cases h
    | some q =>
      show (if q.maturity < p.maturity then some p else some q) = none → False
      by_cases hlt : q.maturity < p.maturity
      · rw [if_pos hlt]; intro h; cases h
      · rw [if_neg hlt]; intro h; cases h

/-- The maximum-maturity point bounds every maturity of the list. -/
theorem maxMatPoint_le : ∀ (l : List YieldPoint) (r : YieldPoint),
    maxMatPoint l = some r → ∀ x ∈ l, x.maturity ≤ r.maturity := by
  intro l
  induction l with
  | nil => intro r h; cases h
  | cons p l ih =>
    intro r h x hx
    revert h
    show (match maxMatPoint l with
          | none => some p
          | some q => if q.maturity < p.maturity then some p else some q) = some r → _
    cases hml : maxMatPoint l with
    | none =>
      intro h
      have hpr : p = r := Option.some.inj h
      rcases List.mem_cons.mp hx with rfl | hx2
      · rw [← hpr]
      · rw [maxMatPoint_eq_none l hml] at hx2
        cases hx2
    | some q =>
      show (if q.maturity < p.maturity then some p else some q) = some r → _
      by_cases hlt : q.maturity < p.maturity
      · rw [if_pos hlt]
        intro h
        have hpr : p = r := Option.some.inj h
        rcases List.mem_cons.mp hx with rfl | hx2
        · rw [← hpr]
        · exact le_trans (ih q hml x hx2) (le_of_lt (hpr ▸ hlt))
      · rw [if_neg hlt]
        intro h
        have hqr : q = r := Option.some.inj h
        rcases List.mem_cons.mp hx with rfl | hx2
        · exact hqr ▸ not_lt.mp hlt
        · exact hqr ▸ ih q hml x hx2

/-- On a strictly sorted list with the query strictly inside the span
and away from every stored maturity, the bracket scan returns the
interpolation at exactly the spec's two bracketing points: the maximal
point below the query and the minimal point above it. -/
theorem bracket_key : ∀ (rest : List YieldPoint) (p : YieldPoint) (m : ℚ),
    List.Pairwise (fun a b : YieldPoint => a.maturity < b.maturity) (p :: rest) →
    p.maturity < m → m < (lastP p rest).maturity →
    (∀ x ∈ p :: rest, x.maturity ≠ m) →
    ∃ p1 p2,
      lowerBracket (p :: rest) m = some p1 ∧
      upperBracket (p :: rest) m = some p2 ∧
      bracketLoop m (p :: rest)
        = some (linearInterpolation m p1.maturity p1.yield p2.maturity p2.yield) := by
  intro rest
  induction rest with
  | nil =>
    intro p m _ h1 h2 _
    exact absurd (h1.trans h2) (lt_irrefl _)
  | cons q rest ih =>
    intro p m hs h1 h2 hne
    rcases List.pairwise_cons.mp hs with ⟨hhead, htail⟩
    have hpq : p.maturity < q.maturity := hhead q (List.mem_cons_self q rest)
    rcases lt_or_gt_of_ne (hne q (List.mem_cons_of_mem p (List.mem_cons_self q rest)))
      with hqm | hmq
    · -- the query lies above the second point: recurse past the head
      obtain ⟨p1, p2, hlow, hup, hloop⟩ :=
        ih q m htail hqm h2 (fun x hx => hne x (List.mem_cons_of_mem p hx))
      refine ⟨p1, p2, ?_, ?_, ?_⟩
      · show maxMatPoint (List.filter (fun x => decide (x.maturity < m)) (p :: q :: rest))
            = some p1
        rw [@List.filter_cons_of_pos YieldPoint (fun x => decide (x.maturity < m)) p
          (q :: rest) (decide_eq_true h1)]
        have hlow' : maxMatPoint (List.filter (fun x => decide (x.maturity < m)) (q :: rest))
            = some p1 := hlow
        have hqmem : q ∈ List.filter (fun x => decide (x.maturity < m)) (q :: rest) :=
          List.mem_filter.mpr ⟨List.mem_cons_self q rest, decide_eq_true hqm⟩
        show (match maxMatPoint (List.filter (fun x => decide (x.maturity < m)) (q :: rest)) with
              | none => some p
              | some r => if r.maturity < p.maturity then some p else some r) = some p1
        rw [hlow']
        show (if p1.maturity < p.maturity then some p else some p1) = some p1
        rw [if_neg (not_lt.mpr (le_of_lt (lt_of_lt_of_le hpq (maxMatPoint_le _ p1 hlow' q hqmem))))]
      · show minMatPoint (List.filter (fun x => decide (m < x.maturity)) (p :: q :: rest))
            = some p2
        rw [@List.filter_cons_of_neg YieldPoint (fun x => decide (m < x.maturity)) p
          (q :: rest) (fun hc => absurd (of_decide_eq_true hc) (not_lt.mpr (le_of_lt h1)))]
        exact hup
      · show (if p.maturity ≤ m ∧ m ≤ q.maturity then
               some (linearInterpolation m p.maturity p.yield q.maturity q.yield)
             else bracketLoop m (q :: rest))
            = some (linearInterpolation m p1.maturity p1.yield p2.maturity p2.yield)
        rw [if_neg (fun hc => absurd hc.2 (not_le.mpr hqm))]
        exact hloop
    · -- the query lies between the first two points: the scan fires here
      refine ⟨p, q, ?_, ?_, ?_⟩
      · show maxMatPoint (List.filter (fun x => decide (x.maturity < m)) (p :: q :: rest))
            = some p
        rw [@List.filter_cons_of_pos YieldPoint (fun x => decide (x.maturity < m)) p
            (q :: rest) (decide_eq_true h1),
          @List.filter_cons_of_neg YieldPoint (fun x => decide (x.maturity < m)) q
            rest (fun hc => absurd (of_decide_eq_true hc) (not_lt.mpr (le_of_lt hmq)))]
        have hrest : List.filter (fun x => decide (x.maturity < m)) rest = [] := by
          rw [List.filter_eq_nil_iff]
          intro x hx hc
          exact absurd (of_decide_eq_true hc)
            (not_lt.mpr (le_of_lt (hmq.trans ((List.pairwise_cons.mp htail).1 x hx))))
        rw [hrest]
        rfl
      · show minMatPoint (List.filter (fun x => decide (m < x.maturity)) (p :: q :: rest))
            = some q
        rw [@List.filter_cons_of_neg YieldPoint (fun x => decide (m < x.maturity)) p
          (q :: rest) (fun hc => absurd (of_decide_eq_true hc) (not_lt.mpr (le_of_lt h1)))]
        have hfq : List.filter (fun x => decide (m < x.maturity)) (q :: rest) = q :: rest := by
          rw [List.filter_eq_self]
          intro x hx
          rcases List.mem_cons.mp hx with rfl | hx2
          · exact decide_eq_true hmq
          · exact decide_eq_true (hmq.trans ((List.pairwise_cons.mp htail).1 x hx2))
        rw [hfq]
        exact minMatPoint_sorted_head rest q htail
      · show (if p.maturity ≤ m ∧ m ≤ q.maturity then
               some (linearInterpolation m p.maturity p.yield q.maturity q.yield)
             else bracketLoop m (q :: rest))
            = some (linearInterpolation m p.maturity p.yield q.maturity q.yield)
        rw [if_pos ⟨le_of_lt h1, le_of_lt hmq⟩]

/-! ### Claim theorems -/

/-- C1: on every store satisfying the sortedness invariant, `getYield`
agrees with the spec's piecewise description `yieldAtSpec`: 0 on the
empty store; the yield of a point within 1e-6 of the query; flat
extrapolation at the minimum and maximum stored maturities; and the
linear-interpolation formula between the two bracketing points
otherwise, a degenerate bracket returning `y1`. -/
theorem getYield_meets_spec (ps : List YieldPoint) (m : ℚ)
    (hs : List.Pairwise (fun a b : YieldPoint => a.maturity < b.maturity) ps) :
    getYield ps m = yieldAtSpec ps m := by
  cases ps with
  | nil => rfl
  | cons p rest =>
    cases hf : (p :: rest).find? (nearB m) with
    | some q =>
      have hL : getYield (p :: rest) m = q.yield := by
        show (match (p :: rest).find? (nearB m) with
              | some q => q.yield
              | none =>
                if m ≤ p.maturity then p.yield
                else if (lastP p rest).maturity ≤ m then (lastP p rest).yield
                else (bracketLoop m (p :: rest)).getD 0) = q.yield
        rw [hf]
      have hR : yieldAtSpec (p :: rest) m = q.yield := by
        show (match (p :: rest).find? (nearB m) with
              | some q => q.yield
              | none =>
                match minMatPoint (p :: rest), maxMatPoint (p :: rest) with
                | some lo, some hi =>
                  if m ≤ lo.maturity then lo.yield
                  else if hi.maturity ≤ m then hi.yield
                  else
                    match lowerBracket (p :: rest) m, upperBracket (p :: rest) m with
                    | some p1, some p2 =>
                      if |p2.maturity - p1.maturity| < degTol then p1.yield
                      else p1.yield + (p2.yield - p1.yield) * (m - p1.maturity) /
                        (p2.maturity - p1.maturity)
                    | _, _ => 0
                | _, _ => 0) = q.yield
        rw [hf]
      rw [hL, hR]
    | none =>
      have hL : getYield (p :: rest) m =
          (if m ≤ p.maturity then p.yield
           else if (lastP p rest).maturity ≤ m then (lastP p rest).yield
           else (bracketLoop m (p :: rest)).getD 0) := by
        show (match (p :: rest).find? (nearB m) with
              | some q => q.yield
              | none =>
                if m ≤ p.maturity then p.yield
                else if (lastP p rest).maturity ≤ m then (lastP p rest).yield
                else (bracketLoop m (p :: rest)).getD 0) = _
        rw [hf]
      have hR : yieldAtSpec (p :: rest) m =
          (if m ≤ p.maturity then p.yield
           else if (lastP p rest).maturity ≤ m then (lastP p rest).yield
           else
             match lowerBracket (p :: rest) m, upperBracket (p :: rest) m with
             | some p1, some p2 =>
               if |p2.maturity - p1.maturity| < degTol then p1.yield
               else p1.yield + (p2.yield - p1.yield) * (m - p1.maturity) /
                 (p2.maturity - p1.maturity)
             | _, _ => 0) := by
        show (match (p :: rest).find? (nearB m) with
              | some q => q.yield
              | none =>
                match minMatPoint (p :: rest), maxMatPoint (p :: rest) with
                | some lo, some hi =>
                  if m ≤ lo.maturity then lo.yield
                  else if hi.maturity ≤ m then hi.yield
                  else
                    match lowerBracket (p :: rest) m, upperBracket (p :: rest) m with
                    | some p1, some p2 =>
                      if |p2.maturity - p1.maturity| < degTol then p1.yield
                      else p1.yield + (p2.yield - p1.yield) * (m - p1.maturity) /
                        (p2.maturity - p1.maturity)
                    | _, _ => 0
                | _, _ => 0) = _
        rw [hf, minMatPoint_sorted_head rest p hs, maxMatPoint_sorted_lastP rest p hs]
      rw [hL, hR]
      by_cases h1 : m ≤ p.maturity
      · rw [if_pos h1, if_pos h1]
      · rw [if_neg h1, if_neg h1]
        by_cases h2 : (lastP p rest).maturity ≤ m
        · rw [if_pos h2, if_pos h2]
        · rw [if_neg h2, if_neg h2]
          have hne : ∀ x ∈ p :: rest, x.maturity ≠ m := by
            intro x hx heq
            have hfx := List.find?_eq_none.mp hf x hx
            apply hfx
            show nearB m x = true
            unfold nearB
            rw [heq, sub_self, abs_zero]
            exact decide_eq_true (by norm_num [nearTol])
          obtain ⟨p1, p2, hlow, hup, hloop⟩ :=
            bracket_key rest p m hs (not_le.mp h1) (not_le.mp h2) hne
          rw [hlow, hup, hloop]
          rfl

/-- Witness for C1 on the sorted store {(1,2%), (3,4%)} at the interior
query 2. -/
theorem getYield_meets_spec_w :
    List.Pairwise (fun a b : YieldPoint => a.maturity < b.maturity)
        [(⟨1, 2, "1Y"⟩ : YieldPoint), ⟨3, 4, "3Y"⟩] ∧
      getYield [(⟨1, 2, "1Y"⟩ : YieldPoint), ⟨3, 4, "3Y"⟩] 2
        = yieldAtSpec [(⟨1, 2, "1Y"⟩ : YieldPoint), ⟨3, 4, "3Y"⟩] 2 :=
  ⟨by with_unfolding_all decide,
    getYield_meets_spec [⟨1, 2, "1Y"⟩, ⟨3, 4, "3Y"⟩] 2 (by with_unfolding_all decide)⟩

/-- C2 amended: `load` returns `true` iff some row has at least 12
tokens and passes the date filter (regardless of how many of its fields
parse); with a non-empty filter the first such row becomes resident (the
loop breaks there), and with an empty filter the last such row becomes
resident, even when it contributes zero parsed points; when no row
qualifies the prior points survive (re-sorted) with `found = false`. -/
theorem loadFromCSV_amended (st : CurveState) (rows : List (List Token)) (filter : String) :
    ((loadFromCSV st rows filter).2 = true ↔ ∃ r ∈ rows, goodRow filter r = true) ∧
      (loadFromCSV st rows filter).1 =
        (match pickRow filter rows with
         | some r => (⟨sortByMaturity (rowPoints r), rowDate r⟩ : CurveState)
         | none => ⟨sortByMaturity st.yield_points, st.curve_date⟩) := by
  constructor
  · show (loadLoop filter st false rows).2 = true ↔ _
    rw [loadLoop_found filter rows st false]
    simp [List.any_eq_true]
  · show (⟨sortByMaturity (loadLoop filter st false rows).1.yield_points,
        (loadLoop filter st false rows).1.curve_date⟩ : CurveState) = _
    rw [loadLoop_state filter rows st false]
    cases hP : pickRow filter rows
    · rfl
    · rfl

/-- C9: after any `load` call on a store whose resident points satisfy
the invariant, the resulting point sequence is sorted strictly
ascending by maturity — in particular no two stored points share a
maturity value. -/
theorem loadFromCSV_invariant (st : CurveState) (rows : List (List Token)) (filter : String)
    (h : List.Pairwise (fun a b : YieldPoint => a.maturity < b.maturity) st.yield_points) :
    List.Pairwise (fun a b : YieldPoint => a.maturity < b.maturity)
      ((loadFromCSV st rows filter).1.yield_points) := by
  show List.Pairwise _ (sortByMaturity (loadLoop filter st false rows).1.yield_points)
  rw [loadLoop_state filter rows st false]
  cases hP : pickRow filter rows with
  | none =>
    exact sortByMaturity_strict _ (h.imp fun hab => ne_of_lt hab)
  | some r =>
    exact sortByMaturity_strict _
      ((parseRowPoints_pairwise maturity_order _ maturity_order_increasing).imp
        fun hab => ne_of_lt hab)

/-- Witness for C9: loading one fully parseable row into an empty store
yields a strictly sorted point sequence. -/
theorem loadFromCSV_invariant_w :
    List.Pairwise (fun a b : YieldPoint => a.maturity < b.maturity)
        (⟨[], ""⟩ : CurveState).yield_points ∧
      List.Pairwise (fun a b : YieldPoint => a.maturity < b.maturity)
        ((loadFromCSV ⟨[], ""⟩
          [⟨"2024-01-01", none⟩ :: (⟨"5.0", some 5⟩ :: List.replicate 10 ⟨"4.0", some 4⟩)]
          "").1.yield_points) :=
  ⟨List.Pairwise.nil,
    loadFromCSV_invariant ⟨[], ""⟩
      [⟨"2024-01-01", none⟩ :: (⟨"5.0", some 5⟩ :: List.replicate 10 ⟨"4.0", some 4⟩)]
      "" List.Pairwise.nil⟩

/-- C10: on a sorted nonempty store, when the exact-match scan misses
and both flat-extrapolation guards fail (the query lies strictly
between the first and last maturities), the bracket scan always finds a
consecutive surrounding pair and `getYield` returns its interpolated
value — the trailing fall-through `return 0.0` of `getYield` is
unreachable. -/
theorem getYield_no_fallthrough (p : YieldPoint) (rest : List YieldPoint) (m : ℚ)
    (hs : List.Pairwise (fun a b : YieldPoint => a.maturity < b.maturity) (p :: rest))
    (hf : (p :: rest).find? (nearB m) = none)
    (h1 : p.maturity < m) (h2 : m < (lastP p rest).maturity) :
    ∃ v, bracketLoop m (p :: rest) = some v ∧ getYield (p :: rest) m = v := by
  have hsome := bracketLoop_fires rest p m hs h1 h2
  rcases Option.isSome_iff_exists.mp hsome with ⟨v, hv⟩
  refine ⟨v, hv, ?_⟩
  have hbranch : getYield (p :: rest) m = (bracketLoop m (p :: rest)).getD 0 := by
    show (match List.find? (nearB m) (p :: rest) with
          | some q => q.yield
          | none =>
            if m ≤ p.maturity then p.yield
            else if (lastP p rest).maturity ≤ m then (lastP p rest).yield
            else (bracketLoop m (p :: rest)).getD 0) = (bracketLoop m (p :: rest)).getD 0
    rw [hf]
    show (if m ≤ p.maturity then p.yield
          else if (lastP p rest).maturity ≤ m then (lastP p rest).yield
          else (bracketLoop m (p :: rest)).getD 0) = _
    rw [if_neg (not_le.mpr h1), if_neg (not_le.mpr h2)]
  rw [hbranch, hv]
  rfl

/-- Witness for C10 on the sorted two-point store {(1,2%), (3,4%)} with
the interior query 2. -/
theorem getYield_no_fallthrough_w :
    (List.Pairwise (fun a b : YieldPoint => a.maturity < b.maturity)
        [(⟨1, 2, "1Y"⟩ : YieldPoint), ⟨3, 4, "3Y"⟩] ∧
      ([(⟨1, 2, "1Y"⟩ : YieldPoint), ⟨3, 4, "3Y"⟩].find? (nearB 2) = none) ∧
      (⟨1, 2, "1Y"⟩ : YieldPoint).maturity < 2 ∧
      (2 : ℚ) < (lastP ⟨1, 2, "1Y"⟩ [⟨3, 4, "3Y"⟩]).maturity) ∧
      ∃ v, bracketLoop 2 [(⟨1, 2, "1Y"⟩ : YieldPoint), ⟨3, 4, "3Y"⟩] = some v ∧
        getYield [(⟨1, 2, "1Y"⟩ : YieldPoint), ⟨3, 4, "3Y"⟩] 2 = v :=
  ⟨⟨by with_unfolding_all decide, by with_unfolding_all decide,
      by with_unfolding_all decide, by with_unfolding_all decide⟩,
    getYield_no_fallthrough ⟨1, 2, "1Y"⟩ [⟨3, 4, "3Y"⟩] 2
      (by with_unfolding_all decide) (by with_unfolding_all decide)
      (by with_unfolding_all decide) (by with_unfolding_all decide)⟩

/-- C3: `classify_shape()` returns "Insufficient Data" for fewer than 3
points; for at least 3 points it returns the first matching case, in the
spec's exact order, of the threshold comparisons on
`yield_at(0.25)`, `yield_at(5.0)`, `yield_at(30.0)`; and on the store
{0.25y: 5.0, 5y: 3.0, 30y: 4.8} it returns "Humped". -/
theorem analyzeCurveShape_meets_spec :
    (∀ ps : List YieldPoint, analyzeCurveShape ps = classifyShapeSpec ps) ∧
    analyzeCurveShape [⟨1/4, 5, "3MO"⟩, ⟨5, 3, "5Y"⟩, ⟨30, 24/5, "30Y"⟩] = "Humped" := by
  constructor
  · intro ps
    unfold analyzeCurveShape classifyShapeSpec
    by_cases hlen : ps.length < 3
    · simp only [hlen, if_true, if_pos]
    · simp only [hlen, if_neg, if_false]
      exact shape_glue _ _ _
  · with_unfolding_all decide

/-- C4: for `t1 < t2`, `forward_rate` computes exactly the compounding
formula `100 * (((1+y2)^t2 / (1+y1)^t1)^(1/(t2-t1)) - 1)` from the two
interpolated spot yields. -/
theorem getForwardRate_formula (ps : List YieldPoint) (t1 t2 : ℚ) (h : t1 < t2) :
    getForwardRate ps t1 t2 =
      100 * (((1 + (getYield ps t2 : ℝ) / 100) ^ (t2 : ℝ) /
              (1 + (getYield ps t1 : ℝ) / 100) ^ (t1 : ℝ)) ^ ((1 : ℝ) / ((t2 : ℝ) - (t1 : ℝ))) - 1) := by
  unfold getForwardRate
  rw [if_neg (not_le.mpr h)]
  ring

/-- Witness for C4 at the empty store with `t1 = 1`, `t2 = 2`. -/
theorem getForwardRate_formula_w :
    (1 : ℚ) < 2 ∧
      getForwardRate [] 1 2 =
        100 * (((1 + (getYield [] 2 : ℝ) / 100) ^ ((2 : ℚ) : ℝ) /
                (1 + (getYield [] 1 : ℝ) / 100) ^ ((1 : ℚ) : ℝ)) ^
                ((1 : ℝ) / (((2 : ℚ) : ℝ) - ((1 : ℚ) : ℝ))) - 1) :=
  ⟨one_lt_two, getForwardRate_formula [] 1 2 one_lt_two⟩

/-- C5: for `t2 ≤ t1` (including equality) `forward_rate` returns the
sentinel 0 through its guard, with no error signalled. -/
theorem getForwardRate_invalidRange (ps : List YieldPoint) (t1 t2 : ℚ) (h : t2 ≤ t1) :
    getForwardRate ps t1 t2 = 0 := by
  unfold getForwardRate
  rw [if_pos h]

/-- Witness for C5 at `t1 = t2 = 1` on the empty store. -/
theorem getForwardRate_invalidRange_w :
    (1 : ℚ) ≤ 1 ∧ getForwardRate [] 1 1 = 0 :=
  ⟨le_refl 1, getForwardRate_invalidRange [] 1 1 (le_refl 1)⟩

/-- C6: on the store {(1y, -150%)} the query `forward_rate(0.5, 1.5)` is
range-valid, and the base of the inner exponentiation,
`1 + yield_at(1.5)/100`, is negative, so with the non-integer exponent
`1.5` the `std::pow` call is a domain error. `std::pow` reports domain
errors through `errno`/NaN and never throws a C++ exception, so the
`catch` block of `YieldCurveLive::getForwardRate` cannot fire (and
`YieldCurve::getForwardRate` has no handler at all): the function
returns NaN, not the 0.0 its own comment promises. -/
theorem getForwardRate_domain_error_input :
    (1/2 : ℚ) < 3/2 ∧ 1 + (getYield [⟨1, -150, "1Y"⟩] (3/2) : ℚ) / 100 < 0 := by
  with_unfolding_all decide

/-- C7 counterexample: `duration` on the empty store returns the queried
maturity, not the sentinel 0.0 the claim asserts for every
maturity-taking query. -/
theorem getDuration_empty_counterexample :
    getDuration [] 5 0 = 5 ∧ getDuration [] 5 0 ≠ 0 := by
  with_unfolding_all decide

/-- C7 amended: on the empty store `yield_at`, `spread` and
`forward_rate` all return the sentinel 0, while `duration` returns the
queried maturity itself (for any coupon rate); no query fails. -/
theorem emptyStore_query_sentinels (m c t1 t2 m1 m2 : ℚ) :
    getYield [] m = 0 ∧ getSpread [] m1 m2 = 0 ∧ getForwardRate [] t1 t2 = 0 ∧
      getDuration [] m c = m := by
  refine ⟨rfl, ?_, ?_, ?_⟩
  · unfold getSpread
    rw [getYield_nil, getYield_nil, sub_self]
  · by_cases hle : t2 ≤ t1
    · unfold getForwardRate
      rw [if_pos hle]
    · unfold getForwardRate
      rw [if_neg hle, getYield_nil, getYield_nil]
      norm_num [Real.one_rpow]
  · by_cases hc : c = 0
    · unfold getDuration
      rw [if_pos hc]
    · unfold getDuration
      rw [if_neg hc, getYield_nil]
      norm_num

/-- C8 counterexample: on the scenario store the exported
`recession_warning` boolean is `true`, not `false` as the claim states
(the spread -0.30 is below the -0.2 threshold). -/
theorem recessionWarning_scenario_counterexample :
    recessionWarning [⟨1/4, 5, "3MO"⟩, ⟨2, 9/2, "2Y"⟩, ⟨10, 21/5, "10Y"⟩, ⟨30, 23/5, "30Y"⟩]
      ≠ false := by
  with_unfolding_all decide

/-- C8 amended: on the scenario store `spread(2,10) = -0.30`, and since
`-0.30 < -0.2` the JSON export's `recession_warning` is `true`. -/
theorem scenario_spread_and_warning :
    getSpread [⟨1/4, 5, "3MO"⟩, ⟨2, 9/2, "2Y"⟩, ⟨10, 21/5, "10Y"⟩, ⟨30, 23/5, "30Y"⟩] 2 10
        = -(3/10) ∧
      recessionWarning [⟨1/4, 5, "3MO"⟩, ⟨2, 9/2, "2Y"⟩, ⟨10, 21/5, "10Y"⟩, ⟨30, 23/5, "30Y"⟩]
        = true := by
  with_unfolding_all decide

/-- C2 counterexample: a single 12-token row whose date passes the empty
filter but none of whose value fields parses still makes `load` return
`true`, while the resident store ends up with zero points — a matching
row contributing zero parsed points does count as found. -/
theorem loadFromCSV_zero_point_row_counterexample :
    (loadFromCSV ⟨[], ""⟩ [⟨"2024-01-01", none⟩ :: List.replicate 11 ⟨"N/A", none⟩] "").2
        = true ∧
      (loadFromCSV ⟨[], ""⟩
          [⟨"2024-01-01", none⟩ :: List.replicate 11 ⟨"N/A", none⟩] "").1.yield_points
        = [] := by
  with_unfolding_all decide

end YieldCurveModel
